import Mathlib

/-!
Verification development for the COMP5521 blockchain repository.

The Python sources are shallowly embedded: bytes are `List Nat` (each entry
`< 256`), Python `int` is `Int` (or `Nat` where the source value is a length),
Python `float` timestamps are `Rat`, and code that can raise an exception is
modelled in `Option` (`none` = the call raises).  SHA-256 is implemented
executably so that hashes of concrete inputs evaluate inside the kernel.

Strings are modelled by Lean `String`; all strings handled by the embedded
code paths (hex digests, base58 addresses, JSON/repr images of them) are
ASCII, for which Python's `str.encode()`/`encode('utf8')` is the identity on
code points, which is how `strBytes` renders it.
-/

namespace Spec2Proof

set_option maxRecDepth 1000000
set_option maxHeartbeats 4000000

/-! ## SHA-256 over byte lists -/

def w32 (x : Nat) : Nat := x &&& 0xFFFFFFFF

def rotr32 (n x : Nat) : Nat := w32 ((x >>> n) ||| (x <<< (32 - n)))

def shaK : List Nat :=
  [1116352408, 1899447441, 3049323471, 3921009573, 961987163, 1508970993,
   2453635748, 2870763221, 3624381080, 310598401, 607225278, 1426881987,
   1925078388, 2162078206, 2614888103, 3248222580, 3835390401, 4022224774,
   264347078, 604807628, 770255983, 1249150122, 1555081692, 1996064986,
   2554220882, 2821834349, 2952996808, 3210313671, 3336571891, 3584528711,
   113926993, 338241895, 666307205, 773529912, 1294757372, 1396182291,
   1695183700, 1986661051, 2177026350, 2456956037, 2730485921, 2820302411,
   3259730800, 3345764771, 3516065817, 3600352804, 4094571909, 275423344,
   430227734, 506948616, 659060556, 883997877, 958139571, 1322822218,
   1537002063, 1747873779, 1955562222, 2024104815, 2227730452, 2361852424,
   2428436474, 2756734187, 3204031479, 3329325298]

def shaH0 : List Nat :=
  [1779033703, 3144134277, 1013904242, 2773480762,
   1359893119, 2600822924, 528734635, 1541459225]

/-- Big-endian bytes of `x`, `n` bytes wide. -/
def beBytes (n x : Nat) : List Nat :=
  match n with
  | 0 => []
  | m + 1 => beBytes m (x >>> 8) ++ [x &&& 0xFF]

/-- SHA-256 padding: append `0x80`, zeros, and the 64-bit big-endian bit length. -/
def shaPad (msg : List Nat) : List Nat :=
  let l := msg.length
  let k := (119 - l % 64) % 64
  msg ++ 0x80 :: List.replicate k 0 ++ beBytes 8 (8 * l)

/-- Group bytes into big-endian 32-bit words (length must be a multiple of 4). -/
def bytesToWords : List Nat → List Nat
  | b0 :: b1 :: b2 :: b3 :: rest =>
      (((b0 <<< 8 ||| b1) <<< 8 ||| b2) <<< 8 ||| b3) :: bytesToWords rest
  | _ => []

/-- Split a word list into 16-word chunks (fuel keeps the recursion structural). -/
def chunk16F : Nat → List Nat → List (List Nat)
  | 0, _ => []
  | _, [] => []
  | fuel + 1, w :: ws => (w :: ws.take 15) :: chunk16F fuel (ws.drop 15)

def chunk16 (ws : List Nat) : List (List Nat) := chunk16F ws.length ws

def smallSigma0 (x : Nat) : Nat := (rotr32 7 x) ^^^ (rotr32 18 x) ^^^ (x >>> 3)
def smallSigma1 (x : Nat) : Nat := (rotr32 17 x) ^^^ (rotr32 19 x) ^^^ (x >>> 10)
def bigSigma0 (x : Nat) : Nat := (rotr32 2 x) ^^^ (rotr32 13 x) ^^^ (rotr32 22 x)
def bigSigma1 (x : Nat) : Nat := (rotr32 6 x) ^^^ (rotr32 11 x) ^^^ (rotr32 25 x)

/-- Extend the 16 schedule words to 64: each fuel step emits the oldest word of
the sliding window and pushes `w[i] = sigma1 w[i-2] + w[i-7] + sigma0 w[i-15] + w[i-16]`. -/
def shaExtend : Nat → List Nat → List Nat
  | 0, ws => ws
  | n + 1, w0 :: w1 :: w2 :: w3 :: w4 :: w5 :: w6 :: w7 ::
           w8 :: w9 :: w10 :: w11 :: w12 :: w13 :: w14 :: w15 :: rest =>
      let nw := w32 (smallSigma1 w14 + w9 + smallSigma0 w1 + w0)
      w0 :: shaExtend n (w1 :: w2 :: w3 :: w4 :: w5 :: w6 :: w7 :: w8 ::
                         w9 :: w10 :: w11 :: w12 :: w13 :: w14 :: w15 :: rest ++ [nw])
  | _ + 1, ws => ws

/-- One round of the SHA-256 compression function. -/
def shaRound (st : List Nat) (kw : Nat × Nat) : List Nat :=
  match st with
  | [a, b, c, d, e, f, g, h] =>
      let t1 := w32 (h + bigSigma1 e + ((e &&& f) ^^^ ((0xFFFFFFFF ^^^ e) &&& g)) + kw.1 + kw.2)
      let t2 := w32 (bigSigma0 a + ((a &&& b) ^^^ (a &&& c) ^^^ (b &&& c)))
      [w32 (t1 + t2), a, b, c, w32 (d + t1), e, f, g]
  | other => other

/-- Compress one 16-word block into the running hash state. -/
def shaCompress (h : List Nat) (block : List Nat) : List Nat :=
  let ws := shaExtend 48 block
  let st := (shaK.zip ws).foldl shaRound h
  (h.zip st).map (fun p => w32 (p.1 + p.2))

def wordsToBytes (ws : List Nat) : List Nat := ws.foldr (fun w acc => beBytes 4 w ++ acc) []

/-- SHA-256 of a byte list. -/
def sha256 (msg : List Nat) : List Nat :=
  wordsToBytes ((chunk16 (bytesToWords (shaPad msg))).foldl shaCompress shaH0)

/-! ## Byte/string helpers shared by the embedded modules -/

/-- `str.encode()` for the ASCII strings the code handles: code points as bytes. -/
def strBytes (s : String) : List Nat := s.data.map Char.toNat

def hexDigitChar (n : Nat) : Char := if n < 10 then Char.ofNat (48 + n) else Char.ofNat (87 + n)

/-- `bytes.hex()` / `hexdigest()`: lowercase hex rendering of a byte list. -/
def toHex (bs : List Nat) : String :=
  String.mk (bs.foldr (fun b acc => hexDigitChar (b / 16) :: hexDigitChar (b % 16) :: acc) [])

def spaceChar : Char := Char.ofNat 32

def hexVal (c : Char) : Option Nat :=
  let n := c.toNat
  if 48 ≤ n ∧ n ≤ 57 then some (n - 48)
  else if 97 ≤ n ∧ n ≤ 102 then some (n - 87)
  else if 65 ≤ n ∧ n ≤ 70 then some (n - 55)
  else none

/-- `bytes.fromhex`: pairs of hex digits, ASCII spaces allowed between pairs;
an odd tail or a non-hex character raises (`none`). -/
def fromhexChars : List Char → Option (List Nat)
  | [] => some []
  | c :: cs =>
      if c = spaceChar then fromhexChars cs
      else
        match cs with
        | [] => none
        | d :: ds => do
            let hi ← hexVal c
            let lo ← hexVal d
            let rest ← fromhexChars ds
            pure ((16 * hi + lo) :: rest)

def pyFromhex (s : String) : Option (List Nat) := fromhexChars s.data

/-- Little-endian bytes of `x`, `n` bytes wide. -/
def leBytes (n x : Nat) : List Nat :=
  match n with
  | 0 => []
  | m + 1 => (x &&& 0xFF) :: leBytes m (x >>> 8)

/-- `struct.pack` with an unsigned little-endian format: raises unless `0 ≤ v < 2^(8n)`. -/
def packLE (n : Nat) (v : Int) : Option (List Nat) :=
  if 0 ≤ v ∧ v < (2 : Int) ^ (8 * n) then some (leBytes n v.toNat) else none

/-- `bytes([n])`: raises unless `n ≤ 255`. -/
def byteN (n : Nat) : Option (List Nat) := if n ≤ 255 then some [n] else none

/-- Double SHA-256 (raw digest bytes). -/
def dsha256 (bs : List Nat) : List Nat := sha256 (sha256 bs)

/-- `sha256(sha256(ser).digest()).digest()[::-1].hex()` — the txid pattern. -/
def txidHex (bs : List Nat) : String := toHex (dsha256 bs).reverse

/-- `hashlib.sha256(s.encode()).hexdigest()` over a string. -/
def sha256hexStr (s : String) : String := toHex (sha256 (strBytes s))

/-- `sha256(sha256(s.encode()).hexdigest().encode()).hexdigest()` — the
hash-of-hex-digest pattern used for block-header and block hashes. -/
def hashStrHex (s : String) : String := sha256hexStr (sha256hexStr s)

def quoteChar : Char := Char.ofNat 39

/-- Python `repr` of an ASCII string with no quotes/backslashes: single-quoted. -/
def pyRepr (s : String) : String := String.singleton quoteChar ++ s ++ String.singleton quoteChar

def lbrace : String := "\x7b"
def rbrace : String := "\x7d"

/-- Python `repr` of a list given the reprs of its items. -/
def pyListRepr (items : List String) : String := "[" ++ String.intercalate ", " items ++ "]"

/-! ## transaction_script.py (Blockchain-UTXO-0.3.0): scripts, serialization, txids -/

structure ScriptVin where
  txid : String
  referid : Int
  scriptSig : String
  sequence : Int
deriving DecidableEq

structure ScriptVout where
  value : Int
  script_pubkey_hash : String
deriving DecidableEq

/-- The `Tx_script` dict built by `TransactionScript.generate_Tx_script`. -/
structure TxScript where
  version : Int
  locktime : Int
  vins : List ScriptVin
  vouts : List ScriptVout
deriving DecidableEq

def serializeVouts : List ScriptVout → Option (List Nat)
  | [] => some []
  | o :: rest => do
      let value ← packLE 8 o.value
      let script := strBytes o.script_pubkey_hash
      let scriptLen ← byteN script.length
      let tail ← serializeVouts rest
      pure (value ++ scriptLen ++ script ++ tail)

/-- `TransactionScript.serialize_Tx`: the byte image hashed for txids and
signature messages.  Faithful quirks: the vin count is the literal byte `1`
and only `Tx_data["vins"][0]` is serialized (an empty vin list raises). -/
def serialize_Tx (d : TxScript) : Option (List Nat) := do
  let version ← packLE 4 d.version
  let vin_count := [1]
  let v0 ← d.vins.head?
  let txid ← pyFromhex v0.txid
  let referid ← packLE 4 v0.referid
  let scriptSig ← pyFromhex v0.scriptSig
  let scriptSig_len ← byteN scriptSig.length
  let sequence ← packLE 4 v0.sequence
  let vout_count ← byteN d.vouts.length
  let output_data ← serializeVouts d.vouts
  let locktime ← packLE 4 d.locktime
  pure (version ++ vin_count ++ txid.reverse ++ referid ++ scriptSig_len ++ scriptSig ++
        sequence ++ vout_count ++ output_data ++ locktime)

/-- `CoinbaseScript.is_coinbase`: only counts and the first vin's
`referid`/`sequence` are examined — never the vin's `txid`. -/
def is_coinbase (d : TxScript) : Option Bool :=
  if d.vins.length > 1 ∨ d.vouts.length > 1 then some false
  else do
    let input ← d.vins.head?
    pure (decide (input.referid = 0xFFFFFFFF ∧ input.sequence = 0xFFFFFFFF))

def zipWith3 (f : α → β → γ → δ) : List α → List β → List γ → List δ
  | a :: as, b :: bs, c :: cs => f a b c :: zipWith3 f as bs cs
  | _, _, _ => []

/-- `StandardTransactionScript.generate_normal_Txid`. -/
def generate_normal_Txid (input_txids : List String) (input_referids : List Int)
    (input_scripts : List String) (output_values : List Int)
    (output_addresses : List String) (nlockTime : Int) : Option (String × TxScript) :=
  if input_txids.length ≠ input_referids.length ∨ input_txids.length ≠ input_scripts.length then
    none
  else if output_addresses.length ≠ output_values.length then
    none
  else
    let inputs := zipWith3 (fun t r s => ScriptVin.mk t r s 0xFFFFFFFF)
      input_txids input_referids input_scripts
    let outputs := (output_addresses.zip output_values).map (fun p => ScriptVout.mk p.2 p.1)
    let d : TxScript := ⟨1, nlockTime, inputs, outputs⟩
    match serialize_Tx d with
    | none => none
    | some ser => some (txidHex ser, d)

/-! ## transactions.py: txInput, txOutput, Transaction -/

structure txInput where
  txid : String
  referid : Int
  pubkey : List Nat
  signature : String
deriving DecidableEq

/-- `txInput.__init__`: raises when the signature is empty. -/
def mkTxInput (txid : String) (referid : Int) (pubkey : List Nat) (signature : String) :
    Option txInput :=
  if signature.length = 0 then none else some ⟨txid, referid, pubkey, signature⟩

structure txOutput where
  value : Int
  pubkey_hash : String
deriving DecidableEq

/-- `txOutput.__init__`: raises when the pubkey hash is empty. -/
def mkTxOutput (value : Int) (pubkey_hash : String) : Option txOutput :=
  if pubkey_hash.length = 0 then none else some ⟨value, pubkey_hash⟩

structure Transaction where
  vins : List txInput
  vouts : List txOutput
  nlockTime : Int
  sum_value : Int
  Txid : String
  fee : Int
deriving DecidableEq

/-- `Transaction.generate_Txid(False, vins, vouts, nlockTime)`: the per-vin
unlock script is `signature ++ " " ++ pubkey.hex()`, and `zip(vins, vouts)`
truncates both lists to the shorter one. -/
def generate_Txid_normal (vins : List txInput) (vouts : List txOutput) (nlockTime : Int) :
    Option (String × TxScript) :=
  let zipped := vins.zip vouts
  let input_txids := zipped.map (fun p => p.1.txid)
  let input_referids := zipped.map (fun p => p.1.referid)
  let input_scripts := zipped.map (fun p => p.1.signature ++ String.singleton spaceChar ++ toHex p.1.pubkey)
  let output_values := zipped.map (fun p => p.2.value)
  let output_addresses := zipped.map (fun p => p.2.pubkey_hash)
  generate_normal_Txid input_txids input_referids input_scripts output_values output_addresses nlockTime

/-- `Transaction.generate_self_script`. -/
def generate_self_script (tx : Transaction) : Option TxScript :=
  (generate_Txid_normal tx.vins tx.vouts tx.nlockTime).map (fun p => p.2)

def sumVoutValues (vouts : List txOutput) : Int := (vouts.map (fun o => o.value)).sum

/-- `Transaction.create_normal_tx`: `Transaction.__init__` evaluates
`generate_Txid` (whose failure propagates) and the classmethod then assigns
the txid component; `fee` starts at 0. -/
def create_normal_tx (vins : List txInput) (vouts : List txOutput) (nlockTime : Int) :
    Option Transaction :=
  match generate_Txid_normal vins vouts nlockTime with
  | none => none
  | some p =>
      some { vins := vins, vouts := vouts, nlockTime := nlockTime,
             sum_value := sumVoutValues vouts, Txid := p.1, fee := 0 }

/-- The serialized-transaction dict produced by `Transaction.serialize`. -/
structure SerializedVin where
  txid : String
  referid : Int
  pubkey_hex : String
  signature : String
deriving DecidableEq

structure SerializedVout where
  value : Int
  pubkey_hash : String
deriving DecidableEq

structure SerializedTx where
  Txid : String
  nlockTime : Int
  serialized_vins : List SerializedVin
  serialized_vouts : List SerializedVout
  fee : Int
deriving DecidableEq

def Transaction.serialize (tx : Transaction) : SerializedTx :=
  { Txid := tx.Txid,
    nlockTime := tx.nlockTime,
    serialized_vins := tx.vins.map (fun v => ⟨v.txid, v.referid, toHex v.pubkey, v.signature⟩),
    serialized_vouts := tx.vouts.map (fun o => ⟨o.value, o.pubkey_hash⟩),
    fee := tx.fee }

/-- `txOutput.deserialize` (on data with both keys present). -/
def txOutputDeserialize (d : SerializedVout) : Option txOutput := mkTxOutput d.value d.pubkey_hash

/-- The vin-rebuilding loop of `Transaction.deserialize`: hex-decode the
pubkey, keep the signature string, rebuild each `txInput`. -/
def parseVins : List SerializedVin → Option (List txInput)
  | [] => some []
  | v :: rest => do
      let pk ← pyFromhex v.pubkey_hex
      let ti ← mkTxInput v.txid v.referid pk v.signature
      let tail ← parseVins rest
      pure (ti :: tail)

def parseVouts : List SerializedVout → Option (List txOutput)
  | [] => some []
  | o :: rest => do
      let t ← txOutputDeserialize o
      let tail ← parseVouts rest
      pure (t :: tail)

/-- `Transaction.deserialize`: rebuilds vins/vouts, lets `Transaction.__init__`
recompute a txid (whose exceptions propagate), then overwrites `Txid`/`fee`
with the stored values. -/
def Transaction.deserialize (d : SerializedTx) : Option Transaction := do
  let vins ← parseVins d.serialized_vins
  let vouts ← parseVouts d.serialized_vouts
  let _ ← generate_Txid_normal vins vouts d.nlockTime
  pure { vins := vins, vouts := vouts, nlockTime := d.nlockTime,
         sum_value := sumVoutValues vouts, Txid := d.Txid, fee := d.fee }

/-- `Transaction.calculate_raw_size`: length of the serialized image built with
each vin's signature as its scriptSig; `0` on any serialization error. -/
def calculate_raw_size (tx : Transaction) : Nat :=
  let d : TxScript :=
    ⟨1, tx.nlockTime,
     tx.vins.map (fun v => ⟨v.txid, v.referid, v.signature, 0xFFFFFFFF⟩),
     tx.vouts.map (fun o => ⟨o.value, o.pubkey_hash⟩)⟩
  match serialize_Tx d with
  | some bs => bs.length
  | none => 0

/-- The `tx_data` dict built by `Transaction.get_signature_message`: every
vin's scriptSig cleared to the empty string, sequence `0xFFFFFFFF`. -/
def sigClearedScript (tx : Transaction) : TxScript :=
  ⟨1, tx.nlockTime,
   tx.vins.map (fun v => ⟨v.txid, v.referid, "", 0xFFFFFFFF⟩),
   tx.vouts.map (fun o => ⟨o.value, o.pubkey_hash⟩)⟩

/-- `Transaction.get_signature_message`: double SHA-256 of the scriptSig-free
serialization. -/
def get_signature_message (tx : Transaction) : Option (List Nat) :=
  (serialize_Tx (sigClearedScript tx)).map dsha256

/-- The signature message `Transaction.payer_sign` hashes for the caller's
`Tx_data` dict (step 2 of the source: double SHA-256 of `serialize_Tx`). -/
def payerSignMessage (Tx_data : TxScript) : Option (List Nat) :=
  (serialize_Tx Tx_data).map dsha256

/-- `Transaction.payer_sign`, with ECDSA abstracted: `signFn` stands for
`sign_transaction` and `pubkeyOfPriv` for `private_key_to_public_key`. -/
def payer_sign (signFn : List Nat → List Nat) (pubkeyOfPriv : List Nat → List Nat)
    (private_key : List Nat) (receiver_address : String) (amount : Int)
    (Tx_data : TxScript) (txid : String) (referid : Int) :
    Option (txInput × txOutput × List Nat) := do
  let msg ← payerSignMessage Tx_data
  let Sig := signFn msg
  let ti ← mkTxInput txid referid (pubkeyOfPriv private_key) (toHex Sig)
  let tout ← mkTxOutput amount receiver_address
  pure (ti, tout, Sig)

/-! ## mining.py: Merkle root, and the 0.3.0 difficulty retarget -/

def pairHashLevel : List String → List String
  | a :: b :: rest => sha256hexStr (a ++ b) :: pairHashLevel rest
  | _ => []

/-- One `while` iteration of `_calculate_merkle_root`: duplicate the last hash
when the level is odd, then hash adjacent pairs. -/
def levelStep (l : List String) : List String :=
  pairHashLevel (if l.length % 2 ≠ 0 then l ++ [l.getLastD ""] else l)

def merkleLoop : Nat → List String → String
  | 0, l => l.headD ""
  | fuel + 1, l => if l.length ≤ 1 then l.headD "" else merkleLoop fuel (levelStep l)

/-- `MiningModule._calculate_merkle_root`. -/
def calculate_merkle_root (txids : List String) : String :=
  if txids.isEmpty then sha256hexStr "" else merkleLoop txids.length txids

/-- `int()` truncation of a Python float/rational, toward zero. -/
def pyTrunc (q : Rat) : Int := if 0 ≤ q then ⌊q⌋ else ⌈q⌉

structure MinerState where
  difficulty : Int
  last_timestamp : Rat
deriving DecidableEq

/-- `MiningModule._adjust_difficulty` (Blockchain-UTXO-0.3.0 mining.py).
`target_time * 0.9` and `target_time * 1.1` evaluate in IEEE doubles to
exactly `270.0` and `330.0`, so the thresholds are the rationals 270 and 330;
`now` stands for the `time.time()` reads. -/
def adjust_difficulty (st : MinerState) (now : Rat) (new_chain_height : Int) : MinerState :=
  if new_chain_height % 5 = 1 then
    let time_diff := now - st.last_timestamp
    { last_timestamp := (pyTrunc now : Int),
      difficulty :=
        if time_diff < 270 then st.difficulty + 1
        else if time_diff > 330 then max 1 (st.difficulty - 1)
        else st.difficulty }
  else st

/-! ## blockchain.py (Blockchain-UTXO 0.2.0): headers, blocks, the chain -/

structure BlockHeader where
  index : Int
  timestamp : Int
  prev_hash : String
  difficulty : Int
  nonce : Int
  merkle_root : String
deriving DecidableEq

def pyIntStr (i : Int) : String := toString i

/-- `json.dumps(header.__dict__, sort_keys=True)` for a header whose
`prev_hash`/`merkle_root` are strings and numeric fields ints: keys in
alphabetical order, `", "` and `": "` separators. -/
def blockHeaderJson (h : BlockHeader) : String :=
  lbrace ++ "\"difficulty\": " ++ pyIntStr h.difficulty ++
  ", \"index\": " ++ pyIntStr h.index ++
  ", \"merkle_root\": \"" ++ h.merkle_root ++
  "\", \"nonce\": " ++ pyIntStr h.nonce ++
  ", \"prev_hash\": \"" ++ h.prev_hash ++
  "\", \"timestamp\": " ++ pyIntStr h.timestamp ++ rbrace

/-- `BlockHeader.calculate_blockheader_hash`. -/
def calculate_blockheader_hash (h : BlockHeader) : String :=
  hashStrHex (blockHeaderJson h)

/-- Python `str()` of the dict `vin.serialize()` returns. -/
def reprSerializedVin (v : SerializedVin) : String :=
  lbrace ++ pyRepr "txid" ++ ": " ++ pyRepr v.txid ++
  ", " ++ pyRepr "referid" ++ ": " ++ pyIntStr v.referid ++
  ", " ++ pyRepr "pubkey_hex" ++ ": " ++ pyRepr v.pubkey_hex ++
  ", " ++ pyRepr "signature" ++ ": " ++ pyRepr v.signature ++ rbrace

def reprSerializedVout (o : SerializedVout) : String :=
  lbrace ++ pyRepr "value" ++ ": " ++ pyIntStr o.value ++
  ", " ++ pyRepr "pubkey_hash" ++ ": " ++ pyRepr o.pubkey_hash ++ rbrace

/-- Python `str(tx.serialize())` — the piece concatenated into the block hash. -/
def reprSerializedTx (t : SerializedTx) : String :=
  lbrace ++ pyRepr "Txid" ++ ": " ++ pyRepr t.Txid ++
  ", " ++ pyRepr "nlockTime" ++ ": " ++ pyIntStr t.nlockTime ++
  ", " ++ pyRepr "serialized_vins" ++ ": " ++ pyListRepr (t.serialized_vins.map reprSerializedVin) ++
  ", " ++ pyRepr "serialized_vouts" ++ ": " ++ pyListRepr (t.serialized_vouts.map reprSerializedVout) ++
  ", " ++ pyRepr "fee" ++ ": " ++ pyIntStr t.fee ++ rbrace

structure Block where
  header : BlockHeader
  block_hash : String
  txs_data : List Transaction
deriving DecidableEq

/-- The `block_hash_data` string of `Block.__init__` / `Block.validate_block`. -/
def blockHashPayload (h : BlockHeader) (txs : List Transaction) : String :=
  "HASH LIST:" ++ calculate_blockheader_hash h ++
  String.join (txs.map (fun t => reprSerializedTx t.serialize))

/-- `Block.__init__`: stores the header and computes the block hash. -/
def mkBlock (index timestamp : Int) (prev_hash : String) (difficulty : Int)
    (merkle_root : String) (nonce : Int) (txs_data : List Transaction) : Block :=
  let h : BlockHeader := ⟨index, timestamp, prev_hash, difficulty, nonce, merkle_root⟩
  ⟨h, hashStrHex (blockHashPayload h txs_data), txs_data⟩

/-- `Block.validate_block`: recompute the block hash and compare. -/
def validate_block (b : Block) : Bool :=
  decide (hashStrHex (blockHashPayload b.header b.txs_data) = b.block_hash)

structure SerializedHeader where
  index : Int
  prev_hash : String
  merkle_root : String
  timestamp : Int
  difficulty : Int
  nonce : Int
deriving DecidableEq

structure SerializedBlock where
  header : SerializedHeader
  transactions : List SerializedTx
  hash : String
deriving DecidableEq

def Block.serialize (b : Block) : SerializedBlock :=
  { header := ⟨b.header.index, b.header.prev_hash, b.header.merkle_root,
               b.header.timestamp, b.header.difficulty, b.header.nonce⟩,
    transactions := b.txs_data.map Transaction.serialize,
    hash := b.block_hash }

/-- `Block.deserialize`: builds the header, deserializes the transactions
(whose failures propagate), then calls
`cls(header=header, txs_data=txs, block_hash=data['hash'])` — but
`Block.__init__` accepts no `header` or `block_hash` parameter, so the call
raises `TypeError` unconditionally. -/
def parseTxs : List SerializedTx → Option (List Transaction)
  | [] => some []
  | t :: rest => do
      let tx ← Transaction.deserialize t
      let tail ← parseTxs rest
      pure (tx :: tail)

def Block.deserialize (d : SerializedBlock) : Option Block := do
  let _txs ← parseTxs d.transactions
  none

/-- `'0' * difficulty` then `str.startswith`. -/
def startsWithZeros (s : String) (difficulty : Int) : Bool :=
  (List.replicate difficulty.toNat (Char.ofNat 48)).isPrefixOf s.data

structure Blockchain where
  blockchain : List Block
deriving DecidableEq

def Blockchain.height (c : Blockchain) : Int := (c.blockchain.length : Int) - 1

def Blockchain.add_block (c : Blockchain) (b : Block) : Blockchain :=
  ⟨c.blockchain ++ [b]⟩

def validateChainBlocks : Option Block → List Block → Bool
  | _, [] => true
  | prev, b :: rest =>
      if ¬ validate_block b then false
      else if ¬ startsWithZeros b.block_hash b.header.difficulty then false
      else if calculate_merkle_root (b.txs_data.map (fun t => t.Txid)) ≠ b.header.merkle_root then false
      else
        match prev with
        | some p =>
            if b.header.prev_hash ≠ p.block_hash then false
            else if b.header.index ≠ p.header.index + 1 then false
            else validateChainBlocks (some b) rest
        | none =>
            if b.header.prev_hash ≠ "0" then false
            else validateChainBlocks (some b) rest

/-- `Blockchain.validate_blockchain`: per-block hash, PoW on the *block* hash,
Merkle root, linkage, `"0"` genesis prev-hash, and the final length/height
consistency check. -/
def validate_blockchain (one : Blockchain) : Bool :=
  if ¬ validateChainBlocks none one.blockchain then false
  else if (one.blockchain.length : Int) ≠ one.height + 1 then false
  else true

/-- `Blockchain.reload_blockchain`: revalidates, then replaces the chain
content with (a deep copy of) the candidate's.  (Python assigns the whole
deep-copied `Blockchain` object into the `blockchain` attribute; the chain
content observed afterwards is the candidate's block list.) -/
def reload_blockchain (self other : Blockchain) : Blockchain :=
  if validate_blockchain other then ⟨other.blockchain⟩ else self

/-! ## mempool.py: UTXO tracking and the mempool -/

/-- Ordered-dict update: replace in place, or append a fresh key. -/
def updAssoc : List (String × β) → String → β → List (String × β)
  | [], k, v => [(k, v)]
  | (k₁, v₁) :: rest, k, v =>
      if k₁ = k then (k, v) :: rest else (k₁, v₁) :: updAssoc rest k v

/-- `del d[k]` on an ordered dict (the caller guards against `KeyError`). -/
def delAssoc : List (String × β) → String → List (String × β)
  | [], _ => []
  | (k₁, v₁) :: rest, k => if k₁ = k then rest else (k₁, v₁) :: delAssoc rest k

structure MempoolState where
  transactions : List (String × Transaction)
  current_size : Int
  max_size : Int
  utxos : List (String × List (Int × Int × String))
  spent : List (String × Int)
deriving DecidableEq

/-- `Mempool.__init__`: transactions reloaded from Redis, UTXOs from MongoDB,
`current_size` starts at 0, `max_size = max_size_mb * 1024 * 1024`,
`spent_outputs` starts empty. -/
def mkMempool (max_size_mb : Int) (loadedTxs : List Transaction)
    (loadedUtxos : List (String × List (Int × Int × String))) : MempoolState :=
  { transactions := loadedTxs.foldl (fun acc t => updAssoc acc t.Txid t) [],
    current_size := 0,
    max_size := max_size_mb * 1024 * 1024,
    utxos := loadedUtxos,
    spent := [] }

/-- `UTXOManager.add_utxo` (persistence ignored): no-op on a duplicate
`(txid, vout_index)`. -/
def add_utxo (s : MempoolState) (txid : String) (vout_index : Int) (amount : Int)
    (address : String) : MempoolState × Bool :=
  match s.utxos.lookup txid with
  | some inner =>
      if (inner.lookup vout_index).isSome then (s, false)
      else ({ s with utxos := updAssoc s.utxos txid (inner ++ [(vout_index, amount, address)]) }, true)
  | none => ({ s with utxos := s.utxos ++ [(txid, [(vout_index, amount, address)])] }, true)

/-- `UTXOManager.mark_spent` (a set add). -/
def mark_spent (s : MempoolState) (txid : String) (vout_index : Int) : MempoolState :=
  if s.spent.contains (txid, vout_index) then s
  else { s with spent := s.spent ++ [(txid, vout_index)] }

def is_spent (s : MempoolState) (txid : String) (vout_index : Int) : Bool :=
  s.spent.contains (txid, vout_index)

/-- The body of `Mempool._validate_transaction`'s vin loop plus the final fee
check.  `vs` abstracts `VerifyHashAndSignatureUtils.verify_signature`
(pubkey → signature → message → verdict). -/
def validateVins (vs : List Nat → List Nat → List Nat → Bool) (s : MempoolState)
    (tx : Transaction) : List txInput → Int → Option Bool
  | [], total_input =>
      some (decide (¬ sumVoutValues tx.vouts + tx.fee > total_input))
  | vin :: rest, total_input => do
      let scr ← generate_self_script tx
      let isCb ← is_coinbase scr
      if is_spent s vin.txid vin.referid then pure false
      else if (s.utxos.lookup vin.txid).isNone ∧ ¬ isCb then pure false
      else if isCb then do
        let v0 ← tx.vouts.head?
        validateVins vs s tx rest (total_input + v0.value)
      else
        match ((s.utxos.lookup vin.txid).getD []).lookup vin.referid with
        | none => pure false
        | some (amount, _) => do
            let message ← get_signature_message tx
            let sigBytes ← pyFromhex vin.signature
            if ¬ vs vin.pubkey sigBytes message then pure false
            else validateVins vs s tx rest (total_input + amount)

/-- `Mempool._validate_transaction`. -/
def validate_transaction (vs : List Nat → List Nat → List Nat → Bool) (s : MempoolState)
    (tx : Transaction) : Option Bool :=
  validateVins vs s tx tx.vins 0

def ratioOf (t : Transaction) : Rat := (t.fee : Rat) / (calculate_raw_size t : Rat)

def minRatioStep (acc : Option Transaction) (p : String × Transaction) : Option Transaction :=
  match acc with
  | none => some p.2
  | some cur => if ratioOf p.2 < ratioOf cur then some p.2 else acc

/-- Python `min(values, key=...)`: the first strictly-minimal element. -/
def minByRatio (l : List (String × Transaction)) : Option Transaction :=
  l.foldl minRatioStep none

/-- `Mempool._evict_low_fee_tx`: `False` on an empty pool; a zero raw size
raises `ZeroDivisionError` inside the `min` key (`none`); otherwise the
first lowest-`fee/raw_size` entry is deleted and `current_size` decremented. -/
def evict_low_fee_tx (s : MempoolState) : Option (Bool × MempoolState) :=
  if s.transactions.isEmpty then some (false, s)
  else if s.transactions.any (fun p => calculate_raw_size p.2 = 0) then none
  else
    match minByRatio s.transactions with
    | none => none
    | some t =>
        if (s.transactions.lookup t.Txid).isNone then none
        else some (true, { s with
          current_size := s.current_size - (calculate_raw_size t : Int),
          transactions := delAssoc s.transactions t.Txid })

/-- The `while current_size + tx_size > max_size` eviction loop of
`add_transaction` (fuel keeps the recursion structural; each iteration
shrinks the pool, so `fuel = pool size` always suffices). -/
def addEvictLoop : Nat → MempoolState → Nat → Option (Bool × MempoolState)
  | 0, s, tx_size =>
      if s.current_size + (tx_size : Int) > s.max_size then
        match evict_low_fee_tx s with
        | some (false, s₁) => some (false, s₁)
        | _ => none
      else some (true, s)
  | fuel + 1, s, tx_size =>
      if s.current_size + (tx_size : Int) > s.max_size then
        match evict_low_fee_tx s with
        | none => none
        | some (false, s₁) => some (false, s₁)
        | some (true, s₁) => addEvictLoop fuel s₁ tx_size
      else some (true, s)

/-- `Mempool.add_transaction` (the Redis mirror of `_save_transactions` is
external state and not modelled). -/
def add_transaction (vs : List Nat → List Nat → List Nat → Bool) (s : MempoolState)
    (tx : Transaction) : Option (Bool × MempoolState) :=
  if (s.transactions.lookup tx.Txid).isSome then some (false, s)
  else
    match validate_transaction vs s tx with
    | none => none
    | some false => some (false, s)
    | some true =>
        match addEvictLoop s.transactions.length s (calculate_raw_size tx) with
        | none => none
        | some (false, s₁) => some (false, s₁)
        | some (true, s₁) =>
            some (true, { s₁ with transactions := updAssoc s₁.transactions tx.Txid tx })

/-- `Mempool.replace_transaction`: early `False` returns leave the state
untouched; the replacement path evaluates `old_Tx.data`, an attribute
`Transaction` does not have, so it raises `AttributeError` (`none`). -/
def replace_transaction (s : MempoolState) (old_Txid : String) (new_Tx : Transaction) :
    Option (Bool × MempoolState) :=
  match s.transactions.lookup old_Txid with
  | none => some (false, s)
  | some old_Tx =>
      if new_Tx.fee ≤ old_Tx.fee then some (false, s)
      else none

/-- `Mempool.update_utxo`: per transaction, mark every vin spent, then add
every vout as a fresh UTXO. -/
def update_utxo (s : MempoolState) (block_transactions : List Transaction) : MempoolState :=
  block_transactions.foldl
    (fun st tx =>
      let st₁ := tx.vins.foldl (fun st v => mark_spent st v.txid v.referid) st
      (tx.vouts.enum).foldl
        (fun st p => (add_utxo st tx.Txid (p.1 : Int) p.2.value p.2.pubkey_hash).1) st₁)
    s

/-! ## network.py: block validation, fork choice -/

structure NodeState where
  blockchain : Blockchain
  mempool : MempoolState
deriving DecidableEq

/-- The per-transaction validation loop of `validate_and_add_block`
(step 4): `False` overall at the first invalid transaction. -/
def checkBlockTxs (vs : List Nat → List Nat → List Nat → Bool) (m : MempoolState) :
    List Transaction → Option Bool
  | [] => some true
  | tx :: rest =>
      match validate_transaction vs m tx with
      | none => none
      | some false => some false
      | some true => checkBlockTxs vs m rest

/-- `NetworkInterface.validate_and_add_block` (src/network.py):
block-hash recheck, height, prev-hash (skipped via the bare `except` when the
chain is empty), per-transaction mempool validation, PoW on the *header*
hash, first-transaction-is-coinbase, Merkle root; on success the block is
appended and the UTXO view updated. -/
def validate_and_add_block (vs : List Nat → List Nat → List Nat → Bool) (s : NodeState)
    (b : Block) : Option (Bool × NodeState) :=
  if ¬ validate_block b then some (false, s)
  else if b.header.index ≠ s.blockchain.height + 1 then some (false, s)
  else if (match s.blockchain.blockchain.getLast? with
           | some last => decide (b.header.prev_hash ≠ last.block_hash)
           | none => false) = true then some (false, s)
  else
    match checkBlockTxs vs s.mempool b.txs_data with
    | none => none
    | some false => some (false, s)
    | some true =>
        if ¬ startsWithZeros (calculate_blockheader_hash b.header) b.header.difficulty then
          some (false, s)
        else
          match b.txs_data.head? with
          | none => none
          | some coinbase_tx =>
              match (generate_self_script coinbase_tx).bind is_coinbase with
              | none => none
              | some false => some (false, s)
              | some true =>
                  if calculate_merkle_root (b.txs_data.map (fun t => t.Txid)) ≠ b.header.merkle_root then
                    some (false, s)
                  else
                    some (true,
                      { blockchain := s.blockchain.add_block b,
                        mempool := update_utxo s.mempool b.txs_data })

/-- `NetworkInterface._is_chain_valid`: adjacent-pair linkage, block-hash
recheck and header-hash PoW, from the second block on. -/
def isChainValidFrom : Block → List Block → Bool
  | _, [] => true
  | prev, curr :: rest =>
      if curr.header.prev_hash ≠ prev.block_hash then false
      else if ¬ validate_block curr then false
      else if ¬ startsWithZeros (calculate_blockheader_hash curr.header) curr.header.difficulty then false
      else isChainValidFrom curr rest

def is_chain_valid (c : Blockchain) : Bool :=
  match c.blockchain with
  | [] => true
  | b :: rest => isChainValidFrom b rest

/-- Modelled from the spec: `Blockchain.calculate_chain_difficulty` is called
by `NetworkInterface._request_full_chain` but its definition is not under
`src/` — per §3, "Chain total work is the sum of `difficulty` over all
headers", the same quantity `_calculate_local_difficulty` computes. -/
def calculate_chain_difficulty (c : Blockchain) : Int :=
  (c.blockchain.map (fun b => b.header.difficulty)).sum

/-- `NetworkInterface._calculate_local_difficulty`. -/
def calculate_local_difficulty (s : NodeState) : Int :=
  (s.blockchain.blockchain.map (fun b => b.header.difficulty)).sum

/-- `NetworkInterface._request_full_chain` (src/network.py), with the fetched
and already-deserialized candidate chain as input: validate, apply the
fork-choice comparison, and on acceptance run `Blockchain.reload_blockchain`.
No mempool or UTXO state is touched. -/
def request_full_chain (s : NodeState) (new_chain : Blockchain) : NodeState :=
  if is_chain_valid new_chain then
    if new_chain.height > s.blockchain.height ∨
       (new_chain.height = s.blockchain.height ∧
        calculate_chain_difficulty new_chain > calculate_local_difficulty s) then
      { s with blockchain := reload_blockchain s.blockchain new_chain }
    else s
  else s

/-! ## Concrete data used by witnesses and counterexamples

Two transactions of the coinbase shape `is_coinbase` recognizes (one vin with
`referid = sequence = 0xFFFFFFFF`, one vout), but whose vin references the
non-sentinel txid `"f4"` rather than the all-zero coinbase txid. -/

def vsNever : List Nat → List Nat → List Nat → Bool := fun _ _ _ => false

def cbTx1 : Transaction := ⟨[⟨"f4", 0xFFFFFFFF, [1, 2], "ab"⟩], [⟨5, "a"⟩], 0, 5, "t1", 0⟩

def cbTx2 : Transaction := ⟨[⟨"f4", 0xFFFFFFFF, [1, 2], "ab"⟩], [⟨5, "a"⟩], 0, 5, "t2", 0⟩

def twoCoinbaseBlock : Block :=
  mkBlock 0 0 "x" 0 (calculate_merkle_root ["t1", "t2"]) 0 [cbTx1, cbTx2]

def emptyNode : NodeState := ⟨⟨[]⟩, mkMempool 10 [] []⟩

/-! ## Supporting lemmas -/

theorem pairHashLevel_length : ∀ l : List String, (pairHashLevel l).length = l.length / 2
  | [] => rfl
  | [_] => by simp [pairHashLevel]
  | a :: b :: rest => by
      simp only [pairHashLevel, List.length_cons, pairHashLevel_length rest]
      omega

theorem levelStep_length (l : List String) : (levelStep l).length = (l.length + 1) / 2 := by
  unfold levelStep
  by_cases h : l.length % 2 ≠ 0
  · rw [if_pos h]
    simp only [pairHashLevel_length, List.length_append, List.length_cons, List.length_nil]
    try omega
  · rw [if_neg h]
    simp only [pairHashLevel_length]
    omega

theorem merkleLoop_congr : ∀ f g : Nat, ∀ l : List String,
    l.length ≤ f → l.length ≤ g → merkleLoop f l = merkleLoop g l := by
  intro f
  induction f with
  | zero =>
      intro g l hf _
      have : l = [] := List.length_eq_zero.mp (Nat.le_zero.mp hf)
      subst this
      cases g <;> simp [merkleLoop]
  | succ f ih =>
      intro g l hf hg
      cases g with
      | zero =>
          have : l = [] := List.length_eq_zero.mp (Nat.le_zero.mp hg)
          subst this
          simp [merkleLoop]
      | succ g =>
          by_cases h1 : l.length ≤ 1
          · simp [merkleLoop, h1]
          · simp only [merkleLoop, h1, if_false]
            have hlen : (levelStep l).length = (l.length + 1) / 2 := levelStep_length l
            exact ih g (levelStep l) (by omega) (by omega)

theorem calculate_merkle_root_step (l : List String) (h : 2 ≤ l.length) :
    calculate_merkle_root l = calculate_merkle_root (levelStep l) := by
  have hne : l.isEmpty = false := by
    cases l with
    | nil => simp at h
    | cons a rest => rfl
  have hstep : (levelStep l).length = (l.length + 1) / 2 := levelStep_length l
  have hne2 : (levelStep l).isEmpty = false := by
    have : (levelStep l).length ≠ 0 := by omega
    cases hls : levelStep l with
    | nil => rw [hls] at this; simp at this
    | cons a rest => rfl
  unfold calculate_merkle_root
  rw [hne, hne2]
  simp only [Bool.false_eq_true, if_false]
  obtain ⟨m, hm⟩ : ∃ m, l.length = m + 2 := ⟨l.length - 2, by omega⟩
  rw [hm]
  show merkleLoop (m + 2) l = merkleLoop (levelStep l).length (levelStep l)
  have : merkleLoop (m + 2) l = merkleLoop (m + 1) (levelStep l) := by
    simp [merkleLoop]
    intro hc
    omega
  rw [this]
  exact merkleLoop_congr (m + 1) (levelStep l).length (levelStep l) (by omega) (by omega)

/-- `checkBlockTxs` succeeding means every transaction validated. -/
theorem checkBlockTxs_all (vs : List Nat → List Nat → List Nat → Bool) (m : MempoolState) :
    ∀ l : List Transaction, checkBlockTxs vs m l = some true →
      ∀ tx ∈ l, validate_transaction vs m tx = some true := by
  intro l
  induction l with
  | nil => intro _ tx htx; simp at htx
  | cons t rest ih =>
      intro h tx htx
      unfold checkBlockTxs at h
      rcases hv : validate_transaction vs m t with _ | b
      · rw [hv] at h; cases h
      · rw [hv] at h
        cases b with
        | false => simp at h
        | true =>
            simp only at h
            rcases List.mem_cons.mp htx with rfl | hmem
            · exact hv
            · exact ih h tx hmem

/-! ## C3: Merkle-root computation -/

/-- C3: the Merkle computation proceeds level by level — for a level of two
or more hashes the root is the root of the next level, the next level
duplicates the last hash when the level is odd and pairs adjacent entries
with SHA-256 otherwise; the empty list yields the hex SHA-256 of the empty
byte string (the well-known `e3b0...b855`); and a singleton `[t]` resolves
to `t` itself. -/
theorem C3_merkle_root_rules :
    (calculate_merkle_root [] = sha256hexStr "" ∧
     sha256hexStr "" = "e3b0c44298fc1c149afbf4c8996fb92427ae41e4649b934ca495991b7852b855") ∧
    (∀ l : List String, 2 ≤ l.length →
       calculate_merkle_root l = calculate_merkle_root (levelStep l)) ∧
    (∀ l : List String, l.length % 2 = 1 → levelStep l = pairHashLevel (l ++ [l.getLastD ""])) ∧
    (∀ l : List String, l.length % 2 = 0 → levelStep l = pairHashLevel l) ∧
    (∀ a b : String, ∀ rest : List String,
       pairHashLevel (a :: b :: rest) = sha256hexStr (a ++ b) :: pairHashLevel rest) ∧
    (∀ t : String, calculate_merkle_root [t] = t) := by
  refine ⟨⟨rfl, rfl⟩, calculate_merkle_root_step, ?_, ?_, fun a b rest => rfl, fun t => rfl⟩
  · intro l h
    unfold levelStep
    rw [if_pos (by omega)]
  · intro l h
    unfold levelStep
    rw [if_neg (by omega)]

/-- C3 witness: the level rule applied at the concrete odd level
`["a", "b", "c"]`. -/
theorem C3_merkle_root_rules_witness :
    calculate_merkle_root ["a", "b", "c"] = calculate_merkle_root (levelStep ["a", "b", "c"]) ∧
    levelStep ["a", "b", "c"] = pairHashLevel ["a", "b", "c", "c"] :=
  ⟨C3_merkle_root_rules.2.1 ["a", "b", "c"] (by decide),
   C3_merkle_root_rules.2.2.1 ["a", "b", "c"] (by decide)⟩

/-! ## C4: the signature message -/

/-- C4: the verifier's message (`get_signature_message`, used by mempool
validation) is the double SHA-256 of the transaction's serialization with
every vin's scriptSig cleared to the empty string, and the signer
(`payer_sign`), handed that same cleared script, hashes the identical byte
image. -/
theorem C4_signature_message (tx : Transaction) :
    get_signature_message tx = (serialize_Tx (sigClearedScript tx)).map dsha256 ∧
    payerSignMessage (sigClearedScript tx) = get_signature_message tx ∧
    ((sigClearedScript tx).vins.all (fun v => v.scriptSig == "")) = true := by
  refine ⟨rfl, rfl, ?_⟩
  simp only [sigClearedScript, List.all_eq_true]
  intro v hv
  rcases List.mem_map.mp hv with ⟨w, _, rfl⟩
  rfl

/-! ## C5: the difficulty retarget -/

/-- C5: at a retarget boundary (the miner's `new_chain_height % 5 == 1`,
once every `RETARGET_WINDOW = 5` blocks), elapsed time below 90% of the
300-second target raises the difficulty by exactly 1, elapsed time above
110% lowers it by 1 but never below 1, anything in between leaves it
unchanged; at non-boundary heights nothing changes. -/
theorem C5_difficulty_retarget (st : MinerState) (now : Rat) (h : Int) :
    (h % 5 = 1 → now - st.last_timestamp < 270 →
       (adjust_difficulty st now h).difficulty = st.difficulty + 1) ∧
    (h % 5 = 1 → now - st.last_timestamp > 330 →
       (adjust_difficulty st now h).difficulty = max 1 (st.difficulty - 1) ∧
       1 ≤ (adjust_difficulty st now h).difficulty) ∧
    (h % 5 = 1 → 270 ≤ now - st.last_timestamp → now - st.last_timestamp ≤ 330 →
       (adjust_difficulty st now h).difficulty = st.difficulty) ∧
    (h % 5 ≠ 1 → adjust_difficulty st now h = st) := by
  refine ⟨?_, ?_, ?_, ?_⟩
  · intro hb hlt
    simp [adjust_difficulty, hb, hlt]
  · intro hb hgt
    have hnlt : ¬ now - st.last_timestamp < 270 := by linarith
    have hd : (adjust_difficulty st now h).difficulty = max 1 (st.difficulty - 1) := by
      simp [adjust_difficulty, hb, hnlt, hgt]
    exact ⟨hd, by rw [hd]; omega⟩
  · intro hb hge hle
    have hnlt : ¬ now - st.last_timestamp < 270 := by linarith
    have hngt : ¬ now - st.last_timestamp > 330 := by linarith
    simp [adjust_difficulty, hb, hnlt, hngt]
  · intro hb
    simp [adjust_difficulty, hb]

/-- C5 witness: from difficulty 4 and elapsed 100 s at boundary height 6 the
difficulty becomes 5; at elapsed 400 s it becomes 3; from difficulty 1 it
stays 1; elapsed 300 s leaves 4; height 7 is not a boundary. -/
theorem C5_difficulty_retarget_witness :
    (adjust_difficulty ⟨4, 0⟩ 100 6).difficulty = 4 + 1 ∧
    (adjust_difficulty ⟨4, 0⟩ 400 6).difficulty = max 1 (4 - 1) ∧
    1 ≤ (adjust_difficulty ⟨1, 0⟩ 400 6).difficulty ∧
    (adjust_difficulty ⟨4, 0⟩ 300 6).difficulty = 4 ∧
    adjust_difficulty ⟨4, 0⟩ 100 7 = ⟨4, 0⟩ :=
  ⟨(C5_difficulty_retarget ⟨4, 0⟩ 100 6).1 (by decide) (by norm_num),
   ((C5_difficulty_retarget ⟨4, 0⟩ 400 6).2.1 (by decide) (by norm_num)).1,
   ((C5_difficulty_retarget ⟨1, 0⟩ 400 6).2.1 (by decide) (by norm_num)).2,
   (C5_difficulty_retarget ⟨4, 0⟩ 300 6).2.2.1 (by decide) (by norm_num) (by norm_num),
   (C5_difficulty_retarget ⟨4, 0⟩ 100 7).2.2.2 (by decide)⟩

/-! ## C7: replace-by-fee error handling -/

/-- C7: `replace_transaction` returns `False` with the mempool state
untouched when the old txid is absent or the new fee is not strictly
greater; and any successful return implies the strict fee increase. -/
theorem C7_rbf_requires_higher_fee (s : MempoolState) (old_Txid : String) (new_Tx : Transaction) :
    (s.transactions.lookup old_Txid = none →
       replace_transaction s old_Txid new_Tx = some (false, s)) ∧
    (∀ old_Tx, s.transactions.lookup old_Txid = some old_Tx → new_Tx.fee ≤ old_Tx.fee →
       replace_transaction s old_Txid new_Tx = some (false, s)) ∧
    (∀ r s₁, replace_transaction s old_Txid new_Tx = some (r, s₁) → r = true →
       ∃ old_Tx, s.transactions.lookup old_Txid = some old_Tx ∧ old_Tx.fee < new_Tx.fee) := by
  refine ⟨?_, ?_, ?_⟩
  · intro h
    simp [replace_transaction, h]
  · intro old_Tx h hle
    simp [replace_transaction, h, hle]
  · intro r s₁ h hr
    subst hr
    rcases hl : s.transactions.lookup old_Txid with _ | old_Tx
    · have h1 : replace_transaction s old_Txid new_Tx = some (false, s) := by
        simp [replace_transaction, hl]
      rw [h1] at h
      simp at h
    · by_cases hle : new_Tx.fee ≤ old_Tx.fee
      · have h1 : replace_transaction s old_Txid new_Tx = some (false, s) := by
          simp [replace_transaction, hl, hle]
        rw [h1] at h
        simp at h
      · exact ⟨old_Tx, rfl, by omega⟩

/-- C7 witness: with `cbTx1` (fee 0) in the pool, replacing it by `cbTx2`
(fee 0) fails without state change, and so does replacing an absent txid. -/
theorem C7_rbf_requires_higher_fee_witness :
    replace_transaction (mkMempool 0 [cbTx1] []) "t1" cbTx2 =
      some (false, mkMempool 0 [cbTx1] []) ∧
    replace_transaction (mkMempool 0 [cbTx1] []) "tX" cbTx2 =
      some (false, mkMempool 0 [cbTx1] []) :=
  ⟨(C7_rbf_requires_higher_fee (mkMempool 0 [cbTx1] []) "t1" cbTx2).2.1 cbTx1
      (by decide) (by decide),
   (C7_rbf_requires_higher_fee (mkMempool 0 [cbTx1] []) "tX" cbTx2).1 (by decide)⟩

/-! ## C10: the coinbase test ignores the vin's txid -/

/-- The script `generate_self_script` yields for a one-vin/one-vout
transaction. -/
theorem generate_self_script_single (tx : Transaction) (v : txInput) (o : txOutput)
    (hv : tx.vins = [v]) (ho : tx.vouts = [o]) (scr : TxScript)
    (hser : generate_self_script tx = some scr) :
    scr = ⟨1, tx.nlockTime,
           [⟨v.txid, v.referid, v.signature ++ String.singleton spaceChar ++ toHex v.pubkey,
             0xFFFFFFFF⟩],
           [⟨o.value, o.pubkey_hash⟩]⟩ := by
  obtain ⟨vins, vouts, nl, sv, tid, fee⟩ := tx
  replace hv : vins = [v] := hv
  replace ho : vouts = [o] := ho
  subst hv
  subst ho
  have hred : generate_self_script ⟨[v], [o], nl, sv, tid, fee⟩ =
      Option.map (fun p : String × TxScript => p.2)
        (match serialize_Tx ⟨1, nl,
            [⟨v.txid, v.referid, v.signature ++ String.singleton spaceChar ++ toHex v.pubkey,
              0xFFFFFFFF⟩],
            [⟨o.value, o.pubkey_hash⟩]⟩ with
         | none => none
         | some ser =>
             some (txidHex ser,
               (⟨1, nl,
                 [⟨v.txid, v.referid,
                   v.signature ++ String.singleton spaceChar ++ toHex v.pubkey, 0xFFFFFFFF⟩],
                 [⟨o.value, o.pubkey_hash⟩]⟩ : TxScript))) := rfl
  rw [hred] at hser
  rcases hs : serialize_Tx ⟨1, nl,
      [⟨v.txid, v.referid, v.signature ++ String.singleton spaceChar ++ toHex v.pubkey,
        0xFFFFFFFF⟩],
      [⟨o.value, o.pubkey_hash⟩]⟩ with _ | ser
  · rw [hs] at hser; cases hser
  · rw [hs] at hser
    exact (Option.some.inj hser).symm

/-- C10: `is_coinbase` accepts any script with one vin, at most one vout,
and `referid = sequence = 0xFFFFFFFF`, never examining the vin's txid; in
mempool validation a transaction of that shape therefore skips the
UTXO-existence lookup (its vin's txid may be entirely unknown to the UTXO
set) and its input total is its own first output value, so validation
reduces to the fee comparison against that output value. -/
theorem C10_coinbase_shape_bypasses_utxo_check
    (vs : List Nat → List Nat → List Nat → Bool) (s : MempoolState)
    (tx : Transaction) (v : txInput) (o : txOutput) (scr : TxScript)
    (hv : tx.vins = [v]) (ho : tx.vouts = [o])
    (href : v.referid = 0xFFFFFFFF)
    (hser : generate_self_script tx = some scr)
    (hns : is_spent s v.txid v.referid = false)
    (hmiss : s.utxos.lookup v.txid = none) :
    is_coinbase scr = some true ∧
    validate_transaction vs s tx =
      some (decide (¬ sumVoutValues tx.vouts + tx.fee > o.value)) := by
  have hscr := generate_self_script_single tx v o hv ho scr hser
  have hcb : is_coinbase scr = some true := by
    subst hscr
    simp [is_coinbase, href]
  refine ⟨hcb, ?_⟩
  unfold validate_transaction
  rw [hv]
  simp only [validateVins, hser, hcb, hns, hmiss, ho, Option.bind_eq_bind, Option.some_bind]
  simp

/-- C10 witness: `cbTx1` has the coinbase shape but its vin cites txid
`"f4"`, unknown to a fresh UTXO set, and it still validates. -/
theorem C10_coinbase_shape_bypasses_utxo_check_witness :
    is_coinbase ⟨1, 0, [⟨"f4", 0xFFFFFFFF,
        "ab" ++ String.singleton spaceChar ++ toHex [1, 2], 0xFFFFFFFF⟩], [⟨5, "a"⟩]⟩ =
      some true ∧
    validate_transaction vsNever (mkMempool 10 [] []) cbTx1 =
      some (decide (¬ sumVoutValues cbTx1.vouts + cbTx1.fee > (5 : Int))) := by
  have h := C10_coinbase_shape_bypasses_utxo_check vsNever (mkMempool 10 [] []) cbTx1
    ⟨"f4", 0xFFFFFFFF, [1, 2], "ab"⟩ ⟨5, "a"⟩
    ⟨1, 0, [⟨"f4", 0xFFFFFFFF, "ab" ++ String.singleton spaceChar ++ toHex [1, 2], 0xFFFFFFFF⟩],
     [⟨5, "a"⟩]⟩
    rfl rfl rfl (by rfl) (by decide) (by decide)
  exact h

/-! ## Lemmas on the ordered-dict operations and the eviction loop -/

theorem lookup_cons_ne (k k₁ : String) (v₁ : β) (rest : List (String × β)) (h : k ≠ k₁) :
    List.lookup k ((k₁, v₁) :: rest) = List.lookup k rest := by
  simp [List.lookup, beq_eq_false_iff_ne.mpr h]

theorem lookup_cons_self (k : String) (v₁ : β) (rest : List (String × β)) :
    List.lookup k ((k, v₁) :: rest) = some v₁ := by
  simp [List.lookup]

theorem updAssoc_lookup_self (l : List (String × β)) (k : String) (v : β) :
    (updAssoc l k v).lookup k = some v := by
  induction l with
  | nil => simp [updAssoc, lookup_cons_self]
  | cons p rest ih =>
      obtain ⟨k₁, v₁⟩ := p
      by_cases h : k₁ = k
      · simp [updAssoc, h, lookup_cons_self]
      · simp only [updAssoc, if_neg h]
        rw [lookup_cons_ne k k₁ v₁ _ (fun hk => h hk.symm)]
        exact ih

theorem delAssoc_length_lt (l : List (String × β)) (k : String)
    (h : (l.lookup k).isSome) : (delAssoc l k).length < l.length := by
  induction l with
  | nil => simp [List.lookup] at h
  | cons p rest ih =>
      obtain ⟨k₁, v₁⟩ := p
      by_cases hk : k₁ = k
      · have hstep : delAssoc ((k₁, v₁) :: rest) k = rest := by simp [delAssoc, hk]
        rw [hstep, List.length_cons]
        omega
      · simp only [delAssoc, if_neg hk, List.length_cons]
        rw [lookup_cons_ne k k₁ v₁ rest (fun hx => hk hx.symm)] at h
        have := ih h
        omega

theorem delAssoc_lookup_none (l : List (String × β)) (k k₁ : String)
    (h : l.lookup k₁ = none) : (delAssoc l k).lookup k₁ = none := by
  induction l with
  | nil => simp [delAssoc, List.lookup]
  | cons p rest ih =>
      obtain ⟨k₂, v₂⟩ := p
      by_cases he : k₁ = k₂
      · subst he
        rw [lookup_cons_self] at h
        cases h
      · rw [lookup_cons_ne k₁ k₂ v₂ rest he] at h
        by_cases hd : k₂ = k
        · have hstep : delAssoc ((k₂, v₂) :: rest) k = rest := by simp [delAssoc, hd]
          rw [hstep]
          exact h
        · simp only [delAssoc, if_neg hd]
          rw [lookup_cons_ne k₁ k₂ v₂ _ he]
          exact ih h

theorem minRatio_fold_spec :
    ∀ (l : List (String × Transaction)) (acc : Option Transaction) (t : Transaction),
      l.foldl minRatioStep acc = some t →
      (∀ u ∈ l.map Prod.snd, ratioOf t ≤ ratioOf u) ∧
      (∀ c, acc = some c → ratioOf t ≤ ratioOf c) ∧
      (t ∈ l.map Prod.snd ∨ acc = some t) := by
  intro l
  induction l with
  | nil =>
      intro acc t h
      simp only [List.foldl_nil] at h
      exact ⟨by simp, fun c hc => by rw [h] at hc; cases hc; exact le_refl _, Or.inr h⟩
  | cons p rest ih =>
      intro acc t h
      simp only [List.foldl_cons] at h
      obtain ⟨hall, hacc, hmem⟩ := ih (minRatioStep acc p) t h
      have hp2 : ratioOf t ≤ ratioOf p.2 := by
        cases acc with
        | none => exact hacc p.2 rfl
        | some cur =>
            by_cases hlt : ratioOf p.2 < ratioOf cur
            · exact hacc p.2 (by simp [minRatioStep, hlt])
            · have hc : ratioOf t ≤ ratioOf cur := hacc cur (by simp [minRatioStep, hlt])
              exact le_trans hc (le_of_not_lt hlt)
      refine ⟨?_, ?_, ?_⟩
      · intro u hu
        simp only [List.map_cons, List.mem_cons] at hu
        rcases hu with h1 | h2
        · rw [h1]; exact hp2
        · exact hall u h2
      · intro c hc
        cases acc with
        | none => cases hc
        | some cur =>
            have hcur : cur = c := by cases hc; rfl
            subst hcur
            by_cases hlt : ratioOf p.2 < ratioOf cur
            · exact le_trans (hacc p.2 (by simp [minRatioStep, hlt])) (le_of_lt hlt)
            · exact hacc cur (by simp [minRatioStep, hlt])
      · rcases hmem with hin | hstep
        · exact Or.inl (by simp only [List.map_cons, List.mem_cons]; exact Or.inr hin)
        · cases acc with
          | none =>
              have : p.2 = t := by
                have := hstep
                simp only [minRatioStep] at this
                cases this
                rfl
              exact Or.inl (by simp [← this])
          | some cur =>
              by_cases hlt : ratioOf p.2 < ratioOf cur
              · have : p.2 = t := by
                  simp only [minRatioStep, if_pos hlt] at hstep
                  cases hstep
                  rfl
                exact Or.inl (by simp [← this])
              · simp only [minRatioStep, if_neg hlt] at hstep
                exact Or.inr hstep


/-- What a successful (`True`) eviction step does: it removes a pool entry of
minimal `fee / raw_size` ratio and decrements `current_size` by its raw
size; a `False` step means the pool was empty. -/
theorem evict_spec (st : MempoolState) (b : Bool) (st₁ : MempoolState)
    (h : evict_low_fee_tx st = some (b, st₁)) :
    (b = false → st₁ = st ∧ st.transactions = []) ∧
    (b = true → ∃ t, t ∈ st.transactions.map Prod.snd ∧
       (∀ u ∈ st.transactions.map Prod.snd, ratioOf t ≤ ratioOf u) ∧
       st₁.transactions = delAssoc st.transactions t.Txid ∧
       st₁.current_size = st.current_size - (calculate_raw_size t : Int) ∧
       st₁.max_size = st.max_size ∧
       st₁.transactions.length < st.transactions.length) := by
  unfold evict_low_fee_tx at h
  by_cases hemp : st.transactions.isEmpty
  · rw [if_pos hemp] at h
    refine ⟨fun _ => ?_, fun hb => ?_⟩
    · injection h with h'
      injection h' with h1 h2
      exact ⟨h2.symm, List.isEmpty_iff.mp hemp⟩
    · injection h with h'
      injection h' with h1 h2
      rw [← h1] at hb
      cases hb
  · rw [if_neg hemp] at h
    by_cases hz : st.transactions.any (fun p => calculate_raw_size p.2 = 0)
    · rw [if_pos hz] at h
      cases h
    · rw [if_neg hz] at h
      rcases hmin : minByRatio st.transactions with _ | t
      · rw [hmin] at h; cases h
      · rw [hmin] at h
        replace h : (if (List.lookup t.Txid st.transactions).isNone = true then
            (none : Option (Bool × MempoolState))
          else some (true, { st with
            current_size := st.current_size - (calculate_raw_size t : Int),
            transactions := delAssoc st.transactions t.Txid })) = some (b, st₁) := h
        rcases hlk : (st.transactions.lookup t.Txid) with _ | tv
        · rw [hlk] at h
          simp at h
        · rw [hlk] at h
          rw [if_neg (by simp)] at h
          injection h with h'
          injection h' with h1 h2
          obtain ⟨hall, _, hmem⟩ := minRatio_fold_spec st.transactions none t hmin
          refine ⟨fun hb => ?_, fun _ => ?_⟩
          · rw [← h1] at hb; cases hb
          · refine ⟨t, ?_, hall, ?_, ?_, ?_, ?_⟩
            · rcases hmem with hm | hm
              · exact hm
              · cases hm
            · rw [← h2]
            · rw [← h2]
            · rw [← h2]
            · rw [← h2]
              exact delAssoc_length_lt st.transactions t.Txid (by simp [hlk])

/-- Behavior of the `add_transaction` eviction loop. -/
theorem addEvictLoop_spec :
    ∀ (fuel : Nat) (st : MempoolState) (sz : Nat) (r : Bool) (st₁ : MempoolState),
      addEvictLoop fuel st sz = some (r, st₁) →
      st₁.max_size = st.max_size ∧
      st₁.current_size ≤ st.current_size ∧
      (∀ k, st.transactions.lookup k = none → st₁.transactions.lookup k = none) ∧
      (r = true → st₁.current_size + (sz : Int) ≤ st₁.max_size) ∧
      (r = false → st₁.transactions = [] ∧ st₁.current_size + (sz : Int) > st₁.max_size) := by
  intro fuel
  induction fuel with
  | zero =>
      intro st sz r st₁ h
      unfold addEvictLoop at h
      by_cases hover : st.current_size + (sz : Int) > st.max_size
      · rw [if_pos hover] at h
        rcases hev : evict_low_fee_tx st with _ | p
        · rw [hev] at h; cases h
        · obtain ⟨b, s₂⟩ := p
          rw [hev] at h
          cases b with
          | false =>
              injection h with h'
              injection h' with h1 h2
              obtain ⟨hf, _⟩ := evict_spec st false s₂ hev
              obtain ⟨hst, hempty⟩ := hf rfl
              subst h2
              refine ⟨by rw [hst], by rw [hst], fun k hk => by rw [hst]; exact hk, ?_, ?_⟩
              · intro hr; rw [← h1] at hr; cases hr
              · intro _
                rw [hst]
                exact ⟨hempty, hover⟩
          | true => cases h
      · rw [if_neg hover] at h
        injection h with h'
        injection h' with h1 h2
        subst h2
        refine ⟨rfl, le_refl _, fun k hk => hk, fun _ => by omega, ?_⟩
        intro hr; rw [← h1] at hr; cases hr
  | succ fuel ih =>
      intro st sz r st₁ h
      unfold addEvictLoop at h
      by_cases hover : st.current_size + (sz : Int) > st.max_size
      · rw [if_pos hover] at h
        rcases hev : evict_low_fee_tx st with _ | p
        · rw [hev] at h; cases h
        · obtain ⟨b, s₂⟩ := p
          rw [hev] at h
          cases b with
          | false =>
              injection h with h'
              injection h' with h1 h2
              obtain ⟨hf, _⟩ := evict_spec st false s₂ hev
              obtain ⟨hst, hempty⟩ := hf rfl
              subst h2
              refine ⟨by rw [hst], by rw [hst], fun k hk => by rw [hst]; exact hk, ?_, ?_⟩
              · intro hr; rw [← h1] at hr; cases hr
              · intro _
                rw [hst]
                exact ⟨hempty, hover⟩
          | true =>
              obtain ⟨_, htr⟩ := evict_spec st true s₂ hev
              obtain ⟨t, _, _, htrans, hcs, hmax, _⟩ := htr rfl
              obtain ⟨imax, ics, ilk, itrue, ifalse⟩ := ih s₂ sz r st₁ h
              refine ⟨by rw [imax, hmax], ?_, ?_, itrue, ifalse⟩
              · have hge : (0 : Int) ≤ (calculate_raw_size t : Int) := Int.ofNat_nonneg _
                omega
              · intro k hk
                apply ilk
                rw [htrans]
                exact delAssoc_lookup_none st.transactions t.Txid k hk
      · rw [if_neg hover] at h
        injection h with h'
        injection h' with h1 h2
        subst h2
        refine ⟨rfl, le_refl _, fun k hk => hk, fun _ => by omega, ?_⟩
        intro hr; rw [← h1] at hr; cases hr

/-! ## C6: eviction on admission -/

/-- C6: when admission runs (fresh txid, valid transaction), every eviction
step performed removes an entry of minimal `fee / raw_size` ratio; on
success the new entry is in the pool and the tracked size fits under
`max_bytes`; and when the pool is exhausted without making room the call
returns `False` with the transaction not added. -/
theorem C6_eviction_until_fit (vs : List Nat → List Nat → List Nat → Bool)
    (s : MempoolState) (tx : Transaction) (r : Bool) (s₁ : MempoolState)
    (h : add_transaction vs s tx = some (r, s₁))
    (hdup : s.transactions.lookup tx.Txid = none)
    (hval : validate_transaction vs s tx = some true) :
    (∀ st st₂ : MempoolState, evict_low_fee_tx st = some (true, st₂) →
       ∃ t, t ∈ st.transactions.map Prod.snd ∧
         (∀ u ∈ st.transactions.map Prod.snd, ratioOf t ≤ ratioOf u) ∧
         st₂.transactions = delAssoc st.transactions t.Txid ∧
         st₂.current_size = st.current_size - (calculate_raw_size t : Int)) ∧
    (r = true → s₁.current_size + (calculate_raw_size tx : Int) ≤ s₁.max_size ∧
       s₁.transactions.lookup tx.Txid = some tx) ∧
    (r = false → s₁.transactions = [] ∧
       s₁.current_size + (calculate_raw_size tx : Int) > s₁.max_size ∧
       s₁.transactions.lookup tx.Txid = none) := by
  have hstep : ∀ st st₂ : MempoolState, evict_low_fee_tx st = some (true, st₂) →
      ∃ t, t ∈ st.transactions.map Prod.snd ∧
        (∀ u ∈ st.transactions.map Prod.snd, ratioOf t ≤ ratioOf u) ∧
        st₂.transactions = delAssoc st.transactions t.Txid ∧
        st₂.current_size = st.current_size - (calculate_raw_size t : Int) := by
    intro st st₂ hev
    obtain ⟨_, htr⟩ := evict_spec st true st₂ hev
    obtain ⟨t, hmem, hall, htrans, hcs, _, _⟩ := htr rfl
    exact ⟨t, hmem, hall, htrans, hcs⟩
  unfold add_transaction at h
  rw [hdup] at h
  simp only [Option.isSome_none, Bool.false_eq_true, if_false] at h
  rw [hval] at h
  rcases hloop : addEvictLoop s.transactions.length s (calculate_raw_size tx) with _ | p
  · rw [hloop] at h; cases h
  · obtain ⟨b, s₂⟩ := p
    rw [hloop] at h
    obtain ⟨lmax, lcs, llk, ltrue, lfalse⟩ :=
      addEvictLoop_spec s.transactions.length s (calculate_raw_size tx) b s₂ hloop
    cases b with
    | false =>
        injection h with h'
        injection h' with h1 h2
        subst h2
        refine ⟨hstep, ?_, ?_⟩
        · intro hr; rw [← h1] at hr; cases hr
        · intro _
          obtain ⟨hempty, hover⟩ := lfalse rfl
          refine ⟨hempty, hover, ?_⟩
          rw [hempty]
          rfl
    | true =>
        injection h with h'
        injection h' with h1 h2
        refine ⟨hstep, ?_, ?_⟩
        · intro _
          constructor
          · rw [← h2]
            simpa using ltrue rfl
          · rw [← h2]
            simpa using updAssoc_lookup_self s₂.transactions tx.Txid tx
        · intro hr; rw [← h1] at hr; cases hr

/-- C6 witness: with `max_bytes = 0` and `cbTx1` (31 raw bytes) in the pool,
admitting `cbTx2` evicts `cbTx1` and then fits. -/
theorem C6_eviction_until_fit_witness :
    add_transaction vsNever (mkMempool 0 [cbTx1] []) cbTx2 =
      some (true, ⟨[("t2", cbTx2)], -31, 0, [], []⟩) ∧
    ((-31 : Int) + (calculate_raw_size cbTx2 : Int) ≤ (0 : Int) ∧
     List.lookup "t2" [("t2", cbTx2)] = some cbTx2) := by
  have h1 : add_transaction vsNever (mkMempool 0 [cbTx1] []) cbTx2 =
      some (true, ⟨[("t2", cbTx2)], -31, 0, [], []⟩) := by rfl
  refine ⟨h1, ?_⟩
  have h2 := (C6_eviction_until_fit vsNever (mkMempool 0 [cbTx1] []) cbTx2 true
    ⟨[("t2", cbTx2)], -31, 0, [], []⟩ h1 (by rfl) (by rfl)).2.1 rfl
  exact h2

/-! ## C9: the tracked occupancy -/

/-- The mempool states reachable from a freshly constructed `Mempool` through
`add_transaction` calls alone. -/
inductive ReachableByAdds : MempoolState → Prop
  | fresh (max_size_mb : Int) (loadedTxs : List Transaction)
      (loadedUtxos : List (String × List (Int × Int × String))) :
      ReachableByAdds (mkMempool max_size_mb loadedTxs loadedUtxos)
  | step (s : MempoolState) (vs : List Nat → List Nat → List Nat → Bool)
      (tx : Transaction) (r : Bool) (s₁ : MempoolState) :
      ReachableByAdds s → add_transaction vs s tx = some (r, s₁) → ReachableByAdds s₁

/-- C9 (amended): `add_transaction` never increases `current_size` — each
call leaves it equal or lower (evictions decrement it) — so from a freshly
constructed mempool every state reachable through `add_transaction` has
`current_size ≤ 0`, and the tracked occupancy never counts the transactions
actually held in the pool. -/
theorem C9_tracked_size_never_increases :
    (∀ (vs : List Nat → List Nat → List Nat → Bool) (s : MempoolState) (tx : Transaction)
       (r : Bool) (s₁ : MempoolState),
       add_transaction vs s tx = some (r, s₁) → s₁.current_size ≤ s.current_size) ∧
    (∀ s : MempoolState, ReachableByAdds s → s.current_size ≤ 0) := by
  have hmono : ∀ (vs : List Nat → List Nat → List Nat → Bool) (s : MempoolState)
      (tx : Transaction) (r : Bool) (s₁ : MempoolState),
      add_transaction vs s tx = some (r, s₁) → s₁.current_size ≤ s.current_size := by
    intro vs s tx r s₁ h
    unfold add_transaction at h
    by_cases hdup : (s.transactions.lookup tx.Txid).isSome
    · rw [if_pos hdup] at h
      injection h with h'
      injection h' with h1 h2
      rw [← h2]
    · rw [if_neg hdup] at h
      rcases hv : validate_transaction vs s tx with _ | b
      · rw [hv] at h; cases h
      · rw [hv] at h
        cases b with
        | false =>
            injection h with h'
            injection h' with h1 h2
            rw [← h2]
        | true =>
            rcases hloop : addEvictLoop s.transactions.length s (calculate_raw_size tx)
              with _ | p
            · rw [hloop] at h; cases h
            · obtain ⟨b₂, s₂⟩ := p
              rw [hloop] at h
              obtain ⟨_, lcs, _, _, _⟩ :=
                addEvictLoop_spec s.transactions.length s (calculate_raw_size tx) b₂ s₂ hloop
              cases b₂ with
              | false =>
                  injection h with h'
                  injection h' with h1 h2
                  rw [← h2]
                  exact lcs
              | true =>
                  injection h with h'
                  injection h' with h1 h2
                  rw [← h2]
                  exact lcs
  refine ⟨hmono, ?_⟩
  intro s hs
  induction hs with
  | fresh mb l u => exact le_refl 0
  | step s vs tx r s₁ _ hadd ih => exact le_trans (hmono vs s tx r s₁ hadd) ih

/-- C9 counterexample: from the freshly constructed `mkMempool 0 [cbTx1] []`
(whose `current_size` is 0), a single `add_transaction` call leaves
`current_size = -31`, not 0. -/
theorem C9_tracked_size_not_always_zero :
    (mkMempool 0 [cbTx1] []).current_size = 0 ∧
    add_transaction vsNever (mkMempool 0 [cbTx1] []) cbTx2 =
      some (true, ⟨[("t2", cbTx2)], -31, 0, [], []⟩) ∧
    (⟨[("t2", cbTx2)], -31, 0, [], []⟩ : MempoolState).current_size < 0 :=
  ⟨rfl, by rfl, by decide⟩

/-- C9 witness: the amended theorem applied to the concrete admission that
evicts: the call lowered `current_size` (never raised it), and the reached
state still satisfies `current_size ≤ 0`. -/
theorem C9_tracked_size_never_increases_witness :
    (⟨[("t2", cbTx2)], -31, 0, [], []⟩ : MempoolState).current_size ≤
      (mkMempool 0 [cbTx1] []).current_size ∧
    (⟨[("t2", cbTx2)], -31, 0, [], []⟩ : MempoolState).current_size ≤ 0 :=
  ⟨C9_tracked_size_never_increases.1 vsNever (mkMempool 0 [cbTx1] []) cbTx2 true
      ⟨[("t2", cbTx2)], -31, 0, [], []⟩ (by rfl),
   C9_tracked_size_never_increases.2 ⟨[("t2", cbTx2)], -31, 0, [], []⟩
      (ReachableByAdds.step (mkMempool 0 [cbTx1] []) vsNever cbTx2 true
        ⟨[("t2", cbTx2)], -31, 0, [], []⟩ (ReachableByAdds.fresh 0 [cbTx1] []) (by rfl))⟩

/-! ## C8: serialization round-trips -/

theorem hexVal_hexDigitChar (n : Nat) (h : n < 16) : hexVal (hexDigitChar n) = some n := by
  interval_cases n <;> decide

theorem hexDigitChar_ne_space (n : Nat) (h : n < 16) : ¬ hexDigitChar n = spaceChar := by
  interval_cases n <;> decide

theorem fromhex_toHexAux :
    ∀ bs : List Nat, (∀ b ∈ bs, b < 256) →
      fromhexChars
        (bs.foldr (fun b acc => hexDigitChar (b / 16) :: hexDigitChar (b % 16) :: acc) []) =
        some bs := by
  intro bs
  induction bs with
  | nil => intro _; rfl
  | cons b rest ih =>
      intro h
      have hb : b < 256 := h b (by simp)
      have hd : b / 16 < 16 := by omega
      have hm : b % 16 < 16 := by omega
      simp only [List.foldr_cons]
      unfold fromhexChars
      rw [if_neg (hexDigitChar_ne_space (b / 16) hd)]
      simp only [Option.bind_eq_bind]
      rw [hexVal_hexDigitChar (b / 16) hd, hexVal_hexDigitChar (b % 16) hm]
      simp only [Option.some_bind]
      rw [ih (fun x hx => h x (by simp [hx]))]
      simp only [Option.some_bind]
      have hdm : 16 * (b / 16) + b % 16 = b := by omega
      rw [hdm]
      rfl

theorem fromhex_toHex (bs : List Nat) (h : ∀ b ∈ bs, b < 256) :
    pyFromhex (toHex bs) = some bs :=
  fromhex_toHexAux bs h

theorem parseVins_roundtrip (vins : List txInput)
    (hpk : ∀ v ∈ vins, ∀ byte ∈ v.pubkey, byte < 256)
    (hsig : ∀ v ∈ vins, v.signature.length ≠ 0) :
    parseVins (vins.map (fun v => ⟨v.txid, v.referid, toHex v.pubkey, v.signature⟩)) =
      some vins := by
  induction vins with
  | nil => rfl
  | cons v rest ih =>
      simp only [List.map_cons]
      unfold parseVins
      rw [fromhex_toHex v.pubkey (hpk v (by simp))]
      simp only [Option.bind_eq_bind, Option.some_bind]
      unfold mkTxInput
      rw [if_neg (hsig v (by simp))]
      simp only [Option.some_bind]
      rw [ih (fun w hw => hpk w (by simp [hw])) (fun w hw => hsig w (by simp [hw]))]
      rfl

theorem parseVouts_roundtrip (vouts : List txOutput)
    (hph : ∀ o ∈ vouts, o.pubkey_hash.length ≠ 0) :
    parseVouts (vouts.map (fun o => ⟨o.value, o.pubkey_hash⟩)) = some vouts := by
  induction vouts with
  | nil => rfl
  | cons o rest ih =>
      simp only [List.map_cons]
      unfold parseVouts
      unfold txOutputDeserialize mkTxOutput
      rw [if_neg (hph o (by simp))]
      simp only [Option.bind_eq_bind, Option.some_bind]
      rw [ih (fun w hw => hph w (by simp [hw]))]
      rfl

/-- C8: `Transaction.deserialize ∘ Transaction.serialize` is the identity
field-for-field on any well-formed transaction (vins with byte pubkeys and
nonempty signatures, vouts with nonempty addresses, a computed `sum_value`,
and a serializable vin/vout structure) — but `Block.deserialize` returns for
NO input at all: its constructor call raises `TypeError`, so the block
round-trip always fails. -/
theorem C8_roundtrip_tx_ok_block_broken (tx : Transaction)
    (hpk : ∀ v ∈ tx.vins, ∀ byte ∈ v.pubkey, byte < 256)
    (hsig : ∀ v ∈ tx.vins, v.signature.length ≠ 0)
    (hph : ∀ o ∈ tx.vouts, o.pubkey_hash.length ≠ 0)
    (hsum : tx.sum_value = sumVoutValues tx.vouts)
    (hgen : (generate_Txid_normal tx.vins tx.vouts tx.nlockTime).isSome) :
    Transaction.deserialize tx.serialize = some tx ∧
    (∀ d : SerializedBlock, Block.deserialize d = none) := by
  constructor
  · obtain ⟨vins, vouts, nl, sv, tid, fee⟩ := tx
    replace hpk : ∀ v ∈ vins, ∀ byte ∈ v.pubkey, byte < 256 := hpk
    replace hsig : ∀ v ∈ vins, v.signature.length ≠ 0 := hsig
    replace hph : ∀ o ∈ vouts, o.pubkey_hash.length ≠ 0 := hph
    replace hsum : sv = sumVoutValues vouts := hsum
    replace hgen : (generate_Txid_normal vins vouts nl).isSome := hgen
    unfold Transaction.deserialize Transaction.serialize
    simp only
    rw [parseVins_roundtrip vins hpk hsig]
    simp only [Option.bind_eq_bind, Option.some_bind]
    rw [parseVouts_roundtrip vouts hph]
    simp only [Option.some_bind]
    rcases hg : generate_Txid_normal vins vouts nl with _ | p
    · rw [hg] at hgen; cases hgen
    · simp only [Option.some_bind]
      rw [hsum]
      rfl
  · intro d
    unfold Block.deserialize
    cases parseTxs d.transactions <;> rfl

/-- C8 witness: the transaction round-trip at `cbTx1`, and the block
round-trip failing at `twoCoinbaseBlock`. -/
theorem C8_roundtrip_tx_ok_block_broken_witness :
    Transaction.deserialize cbTx1.serialize = some cbTx1 ∧
    Block.deserialize twoCoinbaseBlock.serialize = none := by
  have h := C8_roundtrip_tx_ok_block_broken cbTx1
    (by decide) (by decide) (by decide) (by decide) (by rfl)
  exact ⟨h.1, h.2 twoCoinbaseBlock.serialize⟩

/-! ## C1: single-block validation -/

/-- C1 (amended): a block is appended only if the recomputed block hash,
height, prev-hash (when a tip exists), per-transaction mempool validation,
header-hash PoW, first-transaction-is-coinbase, and Merkle-root checks all
pass (the code never requires that the transactions after the first are
non-coinbase); a `False` return leaves the node state unchanged. -/
theorem C1_validate_and_add_block_checks (vs : List Nat → List Nat → List Nat → Bool)
    (s : NodeState) (b : Block) (r : Bool) (s₂ : NodeState)
    (h : validate_and_add_block vs s b = some (r, s₂)) :
    (r = true →
       validate_block b = true ∧
       b.header.index = s.blockchain.height + 1 ∧
       (∀ last, s.blockchain.blockchain.getLast? = some last →
          b.header.prev_hash = last.block_hash) ∧
       (∀ tx ∈ b.txs_data, validate_transaction vs s.mempool tx = some true) ∧
       startsWithZeros (calculate_blockheader_hash b.header) b.header.difficulty = true ∧
       (∃ tx0 rest, b.txs_data = tx0 :: rest ∧
          (generate_self_script tx0).bind is_coinbase = some true) ∧
       calculate_merkle_root (b.txs_data.map (fun t => t.Txid)) = b.header.merkle_root ∧
       s₂.blockchain.blockchain = s.blockchain.blockchain ++ [b] ∧
       s₂.mempool = update_utxo s.mempool b.txs_data) ∧
    (r = false → s₂ = s) := by
  unfold validate_and_add_block at h
  by_cases h1 : validate_block b = true
  case neg =>
    rw [if_pos h1] at h
    injection h with h'
    injection h' with hr hs
    subst hr
    subst hs
    exact ⟨fun ht => Bool.noConfusion ht, fun _ => rfl⟩
  case pos =>
  rw [if_neg (not_not_intro h1)] at h
  by_cases h2 : b.header.index = s.blockchain.height + 1
  case neg =>
    rw [if_pos h2] at h
    injection h with h'
    injection h' with hr hs
    subst hr
    subst hs
    exact ⟨fun ht => Bool.noConfusion ht, fun _ => rfl⟩
  case pos =>
  rw [if_neg (not_not_intro h2)] at h
  by_cases h3 : (match s.blockchain.blockchain.getLast? with
      | some last => decide (b.header.prev_hash ≠ last.block_hash)
      | none => false) = true
  case pos =>
    rw [if_pos h3] at h
    injection h with h'
    injection h' with hr hs
    subst hr
    subst hs
    exact ⟨fun ht => Bool.noConfusion ht, fun _ => rfl⟩
  case neg =>
  rw [if_neg h3] at h
  rcases hc : checkBlockTxs vs s.mempool b.txs_data with _ | bb
  · rw [hc] at h; cases h
  · rw [hc] at h
    cases bb with
    | false =>
        injection h with h'
        injection h' with hr hs
        subst hr
        subst hs
        exact ⟨fun ht => Bool.noConfusion ht, fun _ => rfl⟩
    | true =>
    simp only at h
    by_cases h4 : startsWithZeros (calculate_blockheader_hash b.header) b.header.difficulty = true
    case neg =>
      rw [if_pos h4] at h
      injection h with h'
      injection h' with hr hs
      subst hr
      subst hs
      exact ⟨fun ht => Bool.noConfusion ht, fun _ => rfl⟩
    case pos =>
    rw [if_neg (not_not_intro h4)] at h
    rcases htx : b.txs_data with _ | ⟨tx0, rest⟩
    · rw [htx] at h
      simp only [List.head?_nil] at h
      cases h
    · rw [htx] at h hc
      simp only [List.head?_cons] at h
      rcases hcb : (generate_self_script tx0).bind is_coinbase with _ | cbb
      · rw [hcb] at h; cases h
      · rw [hcb] at h
        cases cbb with
        | false =>
            injection h with h'
            injection h' with hr hs
            subst hr
            subst hs
            exact ⟨fun ht => Bool.noConfusion ht, fun _ => rfl⟩
        | true =>
        simp only at h
        by_cases h5 : calculate_merkle_root ((tx0 :: rest).map (fun t => t.Txid)) =
            b.header.merkle_root
        case neg =>
          rw [if_pos h5] at h
          injection h with h'
          injection h' with hr hs
          subst hr
          subst hs
          exact ⟨fun ht => Bool.noConfusion ht, fun _ => rfl⟩
        case pos =>
        rw [if_neg (not_not_intro h5)] at h
        injection h with h'
        injection h' with hr hs
        subst hr
        refine ⟨fun _ => ?_, fun hf => Bool.noConfusion hf⟩
        refine ⟨h1, h2, ?_, ?_, h4, ?_, ?_, ?_, ?_⟩
        · intro last hlast
          rw [hlast] at h3
          simpa using h3
        · exact checkBlockTxs_all vs s.mempool (tx0 :: rest) hc
        · exact ⟨tx0, rest, rfl, hcb⟩
        · exact h5
        · rw [← hs]
          rfl
        · rw [← hs]

def c1OutState : NodeState :=
  ⟨⟨[twoCoinbaseBlock]⟩, update_utxo (mkMempool 10 [] []) [cbTx1, cbTx2]⟩

/-- C1 counterexample: `twoCoinbaseBlock` is accepted and appended by
`validate_and_add_block` although its SECOND transaction is also of the
coinbase shape — the claim's condition "the first transaction of b is
coinbase and all others are not" is violated by an accepted block, so the
conjunction is not necessary for acceptance. -/
theorem C1_second_coinbase_accepted :
    validate_and_add_block vsNever emptyNode twoCoinbaseBlock = some (true, c1OutState) ∧
    twoCoinbaseBlock.txs_data = [cbTx1, cbTx2] ∧
    (generate_self_script cbTx2).bind is_coinbase = some true ∧
    c1OutState.blockchain.blockchain = emptyNode.blockchain.blockchain ++ [twoCoinbaseBlock] :=
  ⟨by rfl, by rfl, by rfl, by rfl⟩

/-- C1 witness: the amended theorem applied to the accepted concrete block. -/
theorem C1_validate_and_add_block_checks_witness :
    validate_block twoCoinbaseBlock = true ∧
    twoCoinbaseBlock.header.index = emptyNode.blockchain.height + 1 ∧
    startsWithZeros (calculate_blockheader_hash twoCoinbaseBlock.header)
      twoCoinbaseBlock.header.difficulty = true ∧
    calculate_merkle_root (twoCoinbaseBlock.txs_data.map (fun t => t.Txid)) =
      twoCoinbaseBlock.header.merkle_root ∧
    c1OutState.blockchain.blockchain =
      emptyNode.blockchain.blockchain ++ [twoCoinbaseBlock] ∧
    c1OutState.mempool = update_utxo emptyNode.mempool twoCoinbaseBlock.txs_data := by
  have h := (C1_validate_and_add_block_checks vsNever emptyNode twoCoinbaseBlock true c1OutState
    (by rfl)).1 rfl
  exact ⟨h.1, h.2.1, h.2.2.2.2.1, h.2.2.2.2.2.2.1, h.2.2.2.2.2.2.2.1, h.2.2.2.2.2.2.2.2⟩

/-! ## C2: fork choice -/

/-- C2 (amended): the local chain is replaced exactly when the candidate
passes the code's chain validation (`_is_chain_valid` and, inside
`reload_blockchain`, `validate_blockchain`) and is strictly taller, or of
equal height and strictly greater total work; equal height and equal work is
rejected; and in every case the mempool — its pending transactions and its
UTXO view — is left untouched (nothing is cleared or rebuilt). -/
theorem C2_fork_choice (s : NodeState) (cand : Blockchain) :
    ((is_chain_valid cand = true ∧ validate_blockchain cand = true ∧
        (cand.height > s.blockchain.height ∨
         (cand.height = s.blockchain.height ∧
          calculate_chain_difficulty cand > calculate_local_difficulty s))) →
       request_full_chain s cand = ⟨⟨cand.blockchain⟩, s.mempool⟩) ∧
    (¬ (is_chain_valid cand = true ∧ validate_blockchain cand = true ∧
        (cand.height > s.blockchain.height ∨
         (cand.height = s.blockchain.height ∧
          calculate_chain_difficulty cand > calculate_local_difficulty s))) →
       request_full_chain s cand = s) ∧
    (cand.height = s.blockchain.height →
       calculate_chain_difficulty cand = calculate_local_difficulty s →
       request_full_chain s cand = s) ∧
    (request_full_chain s cand).mempool = s.mempool := by
  by_cases hA : is_chain_valid cand = true
  · by_cases hC : (cand.height > s.blockchain.height ∨
        (cand.height = s.blockchain.height ∧
         calculate_chain_difficulty cand > calculate_local_difficulty s))
    · by_cases hB : validate_blockchain cand = true
      · have hreq : request_full_chain s cand = ⟨⟨cand.blockchain⟩, s.mempool⟩ := by
          unfold request_full_chain reload_blockchain
          rw [if_pos hA, if_pos hC, if_pos hB]
        refine ⟨fun _ => hreq, fun hn => absurd ⟨hA, hB, hC⟩ hn, ?_, by rw [hreq]⟩
        intro he hw
        exfalso
        rcases hC with hgt | ⟨heq, hwgt⟩
        · omega
        · omega
      · have hreq : request_full_chain s cand = s := by
          unfold request_full_chain reload_blockchain
          rw [if_pos hA, if_pos hC, if_neg hB]
        refine ⟨fun hall => absurd hall.2.1 hB, fun _ => hreq, fun _ _ => hreq, by rw [hreq]⟩
    · have hreq : request_full_chain s cand = s := by
        unfold request_full_chain
        rw [if_pos hA, if_neg hC]
      refine ⟨fun hall => absurd hall.2.2 hC, fun _ => hreq, fun _ _ => hreq, by rw [hreq]⟩
  · have hreq : request_full_chain s cand = s := by
      unfold request_full_chain
      rw [if_neg hA]
    refine ⟨fun hall => absurd hall.1 hA, fun _ => hreq, fun _ _ => hreq, by rw [hreq]⟩

def candChain : Blockchain := ⟨[mkBlock 0 0 "0" 0 (calculate_merkle_root []) 0 []]⟩

def pendingNode : NodeState := ⟨⟨[]⟩, mkMempool 10 [cbTx1] []⟩

/-- C2 counterexample: the candidate chain is accepted and replaces the
local chain, yet the mempool still contains the pending transaction `cbTx1`
and its UTXO view is untouched — the mempool is NOT cleared and the UTXO set
NOT rebuilt on replacement. -/
theorem C2_mempool_not_cleared :
    request_full_chain pendingNode candChain = ⟨⟨candChain.blockchain⟩, pendingNode.mempool⟩ ∧
    candChain.height > pendingNode.blockchain.height ∧
    (request_full_chain pendingNode candChain).blockchain.blockchain = candChain.blockchain ∧
    (request_full_chain pendingNode candChain).mempool.transactions = [("t1", cbTx1)] :=
  ⟨by rfl, by decide, by rfl, by rfl⟩

/-- C2 witness: the fork-choice theorem applied to the concrete candidate. -/
theorem C2_fork_choice_witness :
    request_full_chain pendingNode candChain = ⟨⟨candChain.blockchain⟩, pendingNode.mempool⟩ :=
  (C2_fork_choice pendingNode candChain).1 ⟨by rfl, by rfl, Or.inl (by decide)⟩

end Spec2Proof
